import Mathlib

/-!
Verification of the plugin orchestration engine of the resume-helper
repository, shallowly embedded from src/src/plugins/PluginManager.ts and the
two configuration prompt plugins cited by the claims
(src/src/plugins/github/GitHubPrompt.ts, src/src/plugins/template/TemplatePrompt.ts).

Modelling conventions:
* JavaScript objects used as string-keyed maps (the outputs map, the deps
  object) are modelled as insertion-ordered association lists
  `List (String × α)` with first-match lookup and overwrite-or-append update,
  matching JS object key semantics for the operations the code performs.
* A thrown JavaScript value is either an `Error` instance carrying a message
  or some non-`Error` value; fallible steps return `Except Thrown _`.
* The reference-identity test `updatedConfig !== currentConfig` in
  `runConfigPrompts` is modelled by having a configuration step report either
  `same` (it returned its argument object) or `fresh c` (it returned a newly
  allocated object with contents `c`).
* Console logging is modelled as an explicit event trace.
* `Array.prototype.sort` is guaranteed stable by ECMAScript; it is modelled
  by a stable insertion sort on the priority comparator used by the code.
-/

namespace ResumeHelper

/-- The content-section record produced by plugins (`PluginContentSection`). -/
structure PluginContentSection where
  title : String
  content : String
  priority : Int
  tokenEstimate : Nat
  sourcePlugin : String
deriving DecidableEq, Repr

/-- A thrown JavaScript value: an `Error` instance with a message, or any
non-`Error` value (carrying an opaque tag). -/
inductive Thrown where
  | errObj (message : String)
  | other (tag : String)
deriving DecidableEq, Repr

/-- The message the manager logs for a caught value:
`error instanceof Error ? error.message : "Unknown error"`. -/
def thrownMessage : Thrown → String
  | .errObj m => m
  | .other _ => ("Unknown error")

/-- The cancellation test in `runConfigPrompts`:
`error instanceof Error && error.message === "Configuration cancelled"`. -/
def isCancellation : Thrown → Bool
  | .errObj m => m == ("Configuration cancelled")
  | .other _ => false

/-- What a configuration step returned, tracking JS reference identity:
`same` means it returned the very object it was given, `fresh c` means it
returned a newly allocated object whose contents are `c`. -/
inductive CfgRet (C : Type) where
  | same
  | fresh (c : C)
deriving DecidableEq, Repr

/-- The options record passed to configuration steps (`PromptConfigOptions`);
an absent record or flag reads as `false`. -/
structure PromptConfigOptions where
  reset : Bool
deriving DecidableEq, Repr

/-- The non-null result of a generation step (`PluginResult`). -/
structure PluginResult (Out : Type) where
  sections : List PluginContentSection
  output : Out
deriving DecidableEq, Repr

/-- A registered plugin (`AnyPlugin`): descriptor fields plus its three
behaviour functions. `C` is the configuration type, `Out` the output payload
type. -/
structure Plugin (C Out : Type) where
  id : String
  name : String
  needs : List String
  sensitiveConfigKeys : List String
  promptForConfig : C → PromptConfigOptions → Except Thrown (CfgRet C)
  canRun : C → List (String × Out) → Except Thrown Bool
  generateContent : C → List (String × Out) → Except Thrown (Option (PluginResult Out))

variable {α : Type} {C : Type} {Out : Type}

/-- First-match lookup in an association list (JS object property read). -/
def lookupKey : List (String × α) → String → Option α
  | [], _ => none
  | kv :: tl, k => if kv.1 == k then some kv.2 else lookupKey tl k

/-- JS object property write: overwrite the entry for `k` in place if the key
is present (keys are unique in the objects the code builds), or append a new
entry. -/
def setKey : List (String × α) → String → α → List (String × α)
  | [], k, v => [(k, v)]
  | kv :: tl, k, v => if kv.1 == k then (k, v) :: tl else kv :: setKey tl k v

@[simp] theorem lookupKey_nil (k : String) : lookupKey ([] : List (String × α)) k = none := rfl

theorem lookupKey_setKey (l : List (String × α)) (k : String) (v : α) (x : String) :
    lookupKey (setKey l k v) x = if k = x then some v else lookupKey l x := by
  induction l with
  | nil =>
    by_cases h : k = x <;> simp [setKey, lookupKey, h]
  | cons kv tl ih =>
    by_cases hk : kv.1 = k
    · by_cases hx : k = x <;> simp [setKey, lookupKey, hk, hx]
    · have hbk : (kv.1 == k) = false := by simp [hk]
      by_cases hkx : kv.1 = x
      · have hne : ¬k = x := fun h => hk (h ▸ hkx)
        simp [setKey, lookupKey, hbk, hkx, hne, Ne.symm hne]
      · have hbx : (kv.1 == x) = false := by simp [hkx]
        simp [setKey, lookupKey, hbk, hbx, ih]

/-- `PluginManager.buildDeps`: fold over the declared `needs`, copying into a
fresh object exactly the entries of `outputs` that are present. -/
def buildDeps (needs : List String) (outputs : List (String × Out)) : List (String × Out) :=
  needs.foldl
    (fun deps depId =>
      match lookupKey outputs depId with
      | some v => setKey deps depId v
      | none => deps)
    []

/-- One console event of the execution pass, mirroring the logging calls in
`PluginManager.execute`. -/
inductive ExecEvent where
  | skipped (id : String)
  | started (id : String)
  | generated (id : String) (count : Nat)
  | noContent (id : String)
  | returnedNull (id : String)
  | errorLogged (id : String) (message : String)
deriving DecidableEq, Repr

/-- The mutable state of one `execute` run: the append-only outputs map, the
collected sections in emission order, and the console trace. -/
structure ExecState (Out : Type) where
  outputs : List (String × Out)
  sections : List PluginContentSection
  trace : List ExecEvent
deriving Repr

/-- The loop body of `PluginManager.execute` for one plugin. Note that
`canRun` is invoked outside the try block in the source, so a value it throws
propagates; only `generateContent` is guarded by try/catch. -/
def execStep (config : C) (st : ExecState Out) (p : Plugin C Out) :
    Except Thrown (ExecState Out) :=
  let deps := buildDeps p.needs st.outputs
  match p.canRun config deps with
  | .error t => .error t
  | .ok false => .ok { st with trace := st.trace ++ [.skipped p.id] }
  | .ok true =>
    let st1 : ExecState Out := { st with trace := st.trace ++ [.started p.id] }
    match p.generateContent config deps with
    | .error t => .ok { st1 with trace := st1.trace ++ [.errorLogged p.id (thrownMessage t)] }
    | .ok none => .ok { st1 with trace := st1.trace ++ [.returnedNull p.id] }
    | .ok (some r) =>
      let st2 : ExecState Out := { st1 with outputs := setKey st1.outputs p.id r.output }
      if r.sections.isEmpty then
        .ok { st2 with trace := st2.trace ++ [.noContent p.id] }
      else
        .ok { st2 with
              sections := st2.sections ++ r.sections,
              trace := st2.trace ++ [.generated p.id r.sections.length] }

/-- The plugin loop of `PluginManager.execute`. -/
def execAux (config : C) : List (Plugin C Out) → ExecState Out → Except Thrown (ExecState Out)
  | [], st => .ok st
  | p :: rest, st =>
    match execStep config st p with
    | .error t => .error t
    | .ok st1 => execAux config rest st1

/-- Stable insertion of a section in front of the first element with priority
greater than or equal to its own. -/
def insertSection (s : PluginContentSection) :
    List PluginContentSection → List PluginContentSection
  | [] => [s]
  | t :: ts => if t.priority < s.priority then t :: insertSection s ts else s :: t :: ts

/-- The final `allSections.sort((a, b) => a.priority - b.priority)`:
ECMAScript guarantees a stable sort, modelled by stable insertion sort on the
same ascending-priority order. -/
def sortSections : List PluginContentSection → List PluginContentSection
  | [] => []
  | s :: rest => insertSection s (sortSections rest)

/-- `PluginManager.execute` over a plugin list in resolved order: run the
plugin loop from an empty state, then return the stably priority-sorted
sections. A thrown eligibility check rejects the whole call. -/
def execute (plugins : List (Plugin C Out)) (config : C) :
    Except Thrown (List PluginContentSection) :=
  (execAux config plugins { outputs := [], sections := [], trace := [] }).map
    (fun st => sortSections st.sections)

/-- State of the depth-first traversal in `PluginManager.topologicalSort`:
the post-order result list and the three-colour bookkeeping sets. -/
structure SortState (C Out : Type) where
  sorted : List (Plugin C Out)
  visited : List String
  visiting : List String

/-- Failure of the resolver. `outOfFuel` is an artefact of the fuelled
embedding of the recursive `visit`; it is proved unreachable below. -/
inductive SortError where
  | circular (id : String)
  | outOfFuel
deriving DecidableEq, Repr

/-- The message of the error thrown on a cycle. -/
def circularMessage (id : String) : String :=
  ("Circular dependency detected involving plugin: ") ++ id

/-- `this.plugins.get(pluginId)` on the registration-ordered map. -/
def findPlugin (plugins : List (Plugin C Out)) (id : String) : Option (Plugin C Out) :=
  plugins.find? (fun p => p.id == id)

/-- Registered identities, as a Bool so hypotheses stay decidable. -/
def isRegistered (plugins : List (Plugin C Out)) (id : String) : Bool :=
  (findPlugin plugins id).isSome

/-- Sequence a stateful step over a list, aborting on the first error: the
`for` loops around `visit` calls, where a thrown error propagates. -/
def runSeq (f : String → SortState C Out → Except SortError (SortState C Out)) :
    List String → SortState C Out → Except SortError (SortState C Out)
  | [], st => .ok st
  | d :: ds, st =>
    match f d st with
    | .error e => .error e
    | .ok st1 => runSeq f ds st1

/-- The recursive `visit` of `PluginManager.topologicalSort`, with a fuel
parameter bounding recursion depth (the source recursion is bounded by the
number of registered plugins, see `visit_no_fuel_error`). -/
def visit (plugins : List (Plugin C Out)) :
    Nat → String → SortState C Out → Except SortError (SortState C Out)
  | 0, _, _ => .error .outOfFuel
  | fuel + 1, id, st =>
    if id ∈ st.visited then .ok st
    else if id ∈ st.visiting then .error (.circular id)
    else
      match findPlugin plugins id with
      | none => .ok st
      | some p =>
        match runSeq (fun d s => visit plugins fuel d s) p.needs
            { st with visiting := id :: st.visiting } with
        | .error e => .error e
        | .ok st1 =>
          .ok { sorted := st1.sorted ++ [p],
                visited := id :: st1.visited,
                visiting := st1.visiting.erase id }

/-- `PluginManager.topologicalSort`: visit every registered identity in
registration order starting from the empty state. -/
def topologicalSort (plugins : List (Plugin C Out)) :
    Except SortError (List (Plugin C Out)) :=
  match runSeq (fun d s => visit plugins (plugins.length + 1) d s)
      (plugins.map (fun p => p.id)) { sorted := [], visited := [], visiting := [] } with
  | .error e => .error e
  | .ok st => .ok st.sorted

/-- The in-memory registry: registration-ordered plugin list plus the cached
resolved order (empty means not computed). -/
structure PluginManager (C Out : Type) where
  plugins : List (Plugin C Out)
  sortedPlugins : List (Plugin C Out)

/-- The apostrophe character, used in the duplicate-registration message. -/
def quoteChar : Char := '\x27'

/-- The exact message of the duplicate-registration error. -/
def duplicateMessage (id : String) : String :=
  ("Plugin with id ") ++ String.singleton quoteChar ++ id ++ String.singleton quoteChar
    ++ (" is already registered")

/-- `PluginManager.register`, as a state transformer returning the outcome
together with the registry state after the call: the duplicate check throws
before any mutation, so on failure the state is returned untouched. -/
def register (m : PluginManager C Out) (p : Plugin C Out) :
    Except String Unit × PluginManager C Out :=
  if m.plugins.any (fun q => q.id == p.id) then
    (.error (duplicateMessage p.id), m)
  else
    (.ok (), { plugins := m.plugins ++ [p], sortedPlugins := [] })

/-- `PluginManager.getPlugins`: recompute the order only when the cache is
empty and the registry is non-empty; otherwise return the cache. -/
def getPlugins (m : PluginManager C Out) : Except SortError (List (Plugin C Out)) :=
  if m.sortedPlugins.length = 0 ∧ 0 < m.plugins.length then
    topologicalSort m.plugins
  else
    .ok m.sortedPlugins

/-- One console event of the configuration pass. -/
inductive CfgEvent where
  | promptFailed (id : String) (message : String)
deriving DecidableEq, Repr

/-- Observable outcome of a configuration pass: every configuration object
persisted by `saveResumeConfig` in call order, the console events, and the
returned configuration or the re-thrown value. The saves are kept even when
the pass ends in a throw, since persistence already happened. -/
structure CfgRun (C : Type) where
  saves : List C
  events : List CfgEvent
  result : Except Thrown C
deriving Repr

/-- The plugin loop of `PluginManager.runConfigPrompts`: a step returning a
new object updates the current configuration and persists it before the next
plugin runs; a thrown cancellation is re-thrown as is and stops the loop; any
other thrown value is logged and the loop continues. -/
def runCfgAux (opts : PromptConfigOptions) :
    List (Plugin C Out) → C → CfgRun C
  | [], cur => { saves := [], events := [], result := .ok cur }
  | p :: rest, cur =>
    match p.promptForConfig cur opts with
    | .ok .same => runCfgAux opts rest cur
    | .ok (.fresh c) =>
      let r := runCfgAux opts rest c
      { saves := c :: r.saves, events := r.events, result := r.result }
    | .error t =>
      if isCancellation t then
        { saves := [], events := [], result := .error t }
      else
        let r := runCfgAux opts rest cur
        { saves := r.saves,
          events := .promptFailed p.id (thrownMessage t) :: r.events,
          result := r.result }

/-- `PluginManager.runConfigPrompts` over plugins in resolved order. -/
def runConfigPrompts (plugins : List (Plugin C Out)) (config : C)
    (opts : PromptConfigOptions) : CfgRun C :=
  runCfgAux opts plugins config

/-- The fields of `ResumeConfig` relevant to the modelled prompt plugins.
Tri-state fields hold either a concrete string or one of the sentinels
`$pending` / `$declined`. -/
structure ResumeConfig where
  companyName : String
  startDate : String
  endDate : String
  githubToken : String
  templatePath : String
  templateContent : String
deriving DecidableEq, Repr

/-- The interactive answers available to `GitHubPrompt.promptForConfig`:
the `p.confirm` and `p.text` results, where `.error ()` is a cancelled
prompt (`p.isCancel`). -/
structure GitHubAnswers where
  keepExisting : Except Unit Bool
  token : Except Unit String

/-- Names of the interactive prompts of the GitHub plugin, in the order the
code can invoke them. -/
def githubConfirmPrompt : String := ("confirm:keep-github-token")

def githubTokenPrompt : String := ("text:github-token")

/-- `GitHubPrompt.promptForConfig`, returning the step outcome together with
the list of interactive prompts actually invoked. -/
def githubPromptForConfig (ans : GitHubAnswers) (config : ResumeConfig)
    (options : PromptConfigOptions) :
    Except Thrown (CfgRet ResumeConfig) × List String :=
  let currentValue := config.githubToken
  let hasExistingToken := currentValue ≠ ("$pending") ∧ currentValue ≠ ("$declined")
  -- if not resetting, skip if already handled (set or declined)
  if ¬options.reset ∧ currentValue ≠ ("$pending") then
    (.ok .same, [])
  else
    -- on reset with existing token, ask whether to keep it
    let keepStep :
        Except Thrown (CfgRet ResumeConfig) × List String → Except Thrown (CfgRet ResumeConfig) × List String :=
      fun next =>
        match ans.keepExisting with
        | .error _ => (.error (.errObj ("Configuration cancelled")), [githubConfirmPrompt])
        | .ok true => (.ok .same, [githubConfirmPrompt])
        | .ok false => (next.1, githubConfirmPrompt :: next.2)
    let askToken : Except Thrown (CfgRet ResumeConfig) × List String :=
      match ans.token with
      | .error _ => (.error (.errObj ("Configuration cancelled")), [githubTokenPrompt])
      | .ok token =>
        if token.trim = ("") then
          (.ok (.fresh { config with githubToken := ("$declined") }), [githubTokenPrompt])
        else
          (.ok (.fresh { config with githubToken := token.trim }), [githubTokenPrompt])
    if options.reset ∧ hasExistingToken then keepStep askToken else askToken

/-- The choice offered by the template plugin select prompt. -/
inductive TemplateChoice where
  | paste
  | file
  | skip
deriving DecidableEq, Repr

/-- The interactive answers and file-system view available to
`TemplatePrompt.promptForConfig`. -/
structure TemplateAnswers where
  fsExists : String → Bool
  choice : Except Unit TemplateChoice
  pasted : String
  filePath : Except Unit String

def templateChoicePrompt : String := ("select:template-choice")

def templatePastePrompt : String := ("input:multiline-template")

def templateFilePrompt : String := ("text:template-path")

/-- `TemplatePrompt.promptForConfig`, returning the step outcome together
with the list of interactive prompts actually invoked. -/
def templatePromptForConfig (ans : TemplateAnswers) (config : ResumeConfig)
    (options : PromptConfigOptions) :
    Except Thrown (CfgRet ResumeConfig) × List String :=
  let hasExistingPath :=
    config.templatePath ≠ ("$pending") ∧ config.templatePath ≠ ("$declined")
  let hasExistingContent :=
    config.templateContent ≠ ("$pending") ∧ config.templateContent ≠ ("$declined")
  -- existing inline content is kept unless resetting
  if hasExistingContent ∧ ¬options.reset then
    (.ok .same, [])
  -- an existing file path is kept if the file still exists
  else if hasExistingPath ∧ ¬options.reset ∧ ans.fsExists config.templatePath then
    (.ok .same, [])
  -- skip when either field was declined and not resetting
  else if ¬options.reset ∧
      (config.templatePath = ("$declined") ∨ config.templateContent = ("$declined")) then
    (.ok .same, [])
  else
    match ans.choice with
    | .error _ => (.error (.errObj ("Configuration cancelled")), [templateChoicePrompt])
    | .ok .skip =>
      (.ok (.fresh { config with
          templatePath := ("$declined"), templateContent := ("$declined") }),
        [templateChoicePrompt])
    | .ok .paste =>
      if ans.pasted.trim = ("") then
        (.ok (.fresh { config with
            templatePath := ("$declined"), templateContent := ("$declined") }),
          [templateChoicePrompt, templatePastePrompt])
      else
        (.ok (.fresh { config with
            templatePath := ("$declined"), templateContent := ans.pasted }),
          [templateChoicePrompt, templatePastePrompt])
    | .ok .file =>
      match ans.filePath with
      | .error _ =>
        (.error (.errObj ("Configuration cancelled")), [templateChoicePrompt, templateFilePrompt])
      | .ok fp =>
        if fp.trim = ("") then
          (.ok (.fresh { config with
              templatePath := ("$declined"), templateContent := ("$declined") }),
            [templateChoicePrompt, templateFilePrompt])
        else if ¬ans.fsExists fp.trim then
          (.ok (.fresh { config with
              templatePath := ("$declined"), templateContent := ("$declined") }),
            [templateChoicePrompt, templateFilePrompt])
        else
          (.ok (.fresh { config with
              templatePath := fp.trim, templateContent := ("$declined") }),
            [templateChoicePrompt, templateFilePrompt])

/-- One edge of the dependency relation over registered identities:
`a` is a registered producer and `b` a registered identity it needs. -/
def depEdge (plugins : List (Plugin C Out)) (a b : String) : Prop :=
  ∃ p, findPlugin plugins a = some p ∧ b ∈ p.needs ∧ isRegistered plugins b = true

/-- The dependency relation over registered identities has no cycle. -/
def Acyclic (plugins : List (Plugin C Out)) : Prop :=
  ∀ c, ¬ Relation.TransGen (depEdge plugins) c c

/-- Invariant of the depth-first traversal maintained on every successful
`visit`: the post-order list contains exactly the visited identities, once
each, each entry is the registered plugin of its identity, visited and
in-progress identities are disjoint, and every element of the list has all
its registered dependencies strictly earlier in the list. -/
structure SortInv (plugins : List (Plugin C Out)) (st : SortState C Out) : Prop where
  sortedFind : ∀ q ∈ st.sorted, findPlugin plugins q.id = some q
  visitedIff : ∀ x, x ∈ st.visited ↔ ∃ q ∈ st.sorted, q.id = x
  nodupSorted : (st.sorted.map (fun q => q.id)).Nodup
  disjoint : ∀ x ∈ st.visited, ¬ x ∈ st.visiting
  topo : ∀ l1 q l2, st.sorted = l1 ++ q :: l2 → ∀ d ∈ q.needs,
      isRegistered plugins d = true → ∃ q2 ∈ l1, q2.id = d

/-- The in-progress stack is a chain of dependency edges: each element is a
registered identity and a declared need of the element below it. -/
def StackChain (plugins : List (Plugin C Out)) : List String → Prop
  | [] => True
  | [x] => isRegistered plugins x = true
  | x :: y :: rest =>
    isRegistered plugins x = true ∧ depEdge plugins y x ∧ StackChain plugins (y :: rest)

/-- Fuel measure of the traversal: the number of registered identities not on
the in-progress stack. -/
def remFuel (plugins : List (Plugin C Out)) (st : SortState C Out) : Nat :=
  ((plugins.map (fun p => p.id)).filter (fun x => decide (¬ x ∈ st.visiting))).length

/-- A concrete plugin over `Unit` configurations and `Nat` outputs, used to
instantiate the engine theorems on closed inputs. -/
def testPlugin (id : String) (needs : List String)
    (cr : Unit → List (String × Nat) → Except Thrown Bool)
    (gen : Unit → List (String × Nat) → Except Thrown (Option (PluginResult Nat))) :
    Plugin Unit Nat :=
  { id := id, name := id, needs := needs, sensitiveConfigKeys := [],
    promptForConfig := fun _ _ => .ok .same,
    canRun := cr,
    generateContent := gen }

/-- A concrete plugin over `Nat` configurations, used to instantiate the
configuration-pass theorems on closed inputs. -/
def cfgTestPlugin (id : String)
    (f : Nat → PromptConfigOptions → Except Thrown (CfgRet Nat)) : Plugin Nat Nat :=
  { id := id, name := id, needs := [], sensitiveConfigKeys := [],
    promptForConfig := f,
    canRun := fun _ _ => .ok false,
    generateContent := fun _ _ => .ok none }

def badCanRunPlugin : Plugin Unit Nat :=
  testPlugin ("bad") [] (fun _ _ => .error (.errObj ("boom"))) (fun _ _ => .ok none)

def genErrorPlugin : Plugin Unit Nat :=
  testPlugin ("gerr") [] (fun _ _ => .ok true) (fun _ _ => .error (.errObj ("net down")))

def nullResultPlugin : Plugin Unit Nat :=
  testPlugin ("nullp") [] (fun _ _ => .ok true) (fun _ _ => .ok none)

def recordedPlugin : Plugin Unit Nat :=
  testPlugin ("rec") [] (fun _ _ => .ok true)
    (fun _ _ => .ok (some { sections := [], output := 7 }))

/-- The final engine state of a run of `[recordedPlugin]`. -/
def recFinalState : ExecState Nat :=
  { outputs := [((("rec")), (7 : Nat))], sections := [],
    trace := [.started (("rec")), .noContent (("rec"))] }

def sectionX : PluginContentSection :=
  { title := ("X"), content := ("x"), priority := 10, tokenEstimate := 1,
    sourcePlugin := ("emit") }

def sectionY : PluginContentSection :=
  { title := ("Y"), content := ("y"), priority := 5, tokenEstimate := 1,
    sourcePlugin := ("emit") }

def emitPlugin : Plugin Unit Nat :=
  testPlugin ("emit") [] (fun _ _ => .ok true)
    (fun _ _ => .ok (some { sections := [sectionX, sectionY], output := 0 }))

def cfgPluginFresh : Plugin Nat Nat :=
  cfgTestPlugin ("cf") (fun c _ => .ok (.fresh (c + 1)))

def cfgPluginCancel : Plugin Nat Nat :=
  cfgTestPlugin ("cc") (fun _ _ => .error (.errObj ("Configuration cancelled")))

def cfgPluginThrow : Plugin Nat Nat :=
  cfgTestPlugin ("ct") (fun _ _ => .error (.other ("weird")))

def ghAnswers : GitHubAnswers :=
  { keepExisting := .ok true, token := .ok ("") }

def tmplAnswers : TemplateAnswers :=
  { fsExists := fun _ => false, choice := .ok .skip, pasted := (""), filePath := .ok ("") }

def declinedConfig : ResumeConfig :=
  { companyName := ("c"), startDate := ("s"), endDate := ("e"),
    githubToken := ("$declined"), templatePath := ("$declined"),
    templateContent := ("$pending") }

def depPluginB : Plugin Unit Nat :=
  testPlugin ("b") [] (fun _ _ => .ok false) (fun _ _ => .ok none)

def depPluginA : Plugin Unit Nat :=
  testPlugin ("a") [("b")] (fun _ _ => .ok false) (fun _ _ => .ok none)

def cycPluginA : Plugin Unit Nat :=
  testPlugin ("ca") [("cb")] (fun _ _ => .ok false) (fun _ _ => .ok none)

def cycPluginB : Plugin Unit Nat :=
  testPlugin ("cb") [("ca")] (fun _ _ => .ok false) (fun _ _ => .ok none)

theorem isCancellation_iff (t : Thrown) :
    isCancellation t = true ↔ t = .errObj ("Configuration cancelled") := by
  cases t with
  | errObj m =>
    simp only [isCancellation, beq_iff_eq, Thrown.errObj.injEq]
  | other s => simp [isCancellation]

theorem runCfgAux_append_ok (opts : PromptConfigOptions) (l1 l2 : List (Plugin C Out))
    (cur c1 : C) (h : (runCfgAux opts l1 cur).result = .ok c1) :
    runCfgAux opts (l1 ++ l2) cur =
      { saves := (runCfgAux opts l1 cur).saves ++ (runCfgAux opts l2 c1).saves,
        events := (runCfgAux opts l1 cur).events ++ (runCfgAux opts l2 c1).events,
        result := (runCfgAux opts l2 c1).result } := by
  induction l1 generalizing cur with
  | nil =>
    simp only [runCfgAux, Except.ok.injEq] at h
    subst h
    simp [runCfgAux]
  | cons p tl ih =>
    simp only [List.cons_append, runCfgAux] at h ⊢
    cases hp : p.promptForConfig cur opts with
    | ok ret =>
      cases ret with
      | same =>
        simp only [hp] at h ⊢
        exact ih cur h
      | fresh c =>
        simp only [hp] at h ⊢
        have := ih c h
        simp [this]
    | error t =>
      by_cases hc : isCancellation t
      · simp only [hp, hc, if_true] at h ⊢
        exact absurd h (by simp)
      · simp only [hp, hc, if_false] at h ⊢
        have := ih cur h
        simp [this]

theorem runCfgAux_append_error (opts : PromptConfigOptions) (l1 l2 : List (Plugin C Out))
    (cur : C) (t : Thrown) (h : (runCfgAux opts l1 cur).result = .error t) :
    runCfgAux opts (l1 ++ l2) cur = runCfgAux opts l1 cur := by
  induction l1 generalizing cur with
  | nil => simp [runCfgAux] at h
  | cons p tl ih =>
    simp only [List.cons_append, runCfgAux] at h ⊢
    cases hp : p.promptForConfig cur opts with
    | ok ret =>
      cases ret with
      | same =>
        simp only [hp] at h ⊢
        exact ih cur h
      | fresh c =>
        simp only [hp] at h ⊢
        have := ih c h
        simp [this]
    | error u =>
      by_cases hc : isCancellation u
      · simp [hp, hc]
      · simp only [hp, hc, if_false] at h ⊢
        have := ih cur h
        simp [this]

/-- C10: a value thrown by a configuration step escapes `runConfigPrompts` if
and only if it is an Error whose message is exactly the string
"Configuration cancelled"; every other thrown value, Error or not, is logged
under the message the manager prints and swallowed, and the pass continues
with the remaining producers. -/
theorem runConfigPrompts_escape_iff_cancelled_message (opts : PromptConfigOptions) :
    (∀ (plugins : List (Plugin C Out)) (config : C) (t : Thrown),
        (runConfigPrompts plugins config opts).result = .error t →
        t = .errObj ("Configuration cancelled"))
    ∧ (∀ (p : Plugin C Out) (rest : List (Plugin C Out)) (config : C) (t : Thrown),
        p.promptForConfig config opts = .error t →
        t = .errObj ("Configuration cancelled") →
        runConfigPrompts (p :: rest) config opts =
          { saves := [], events := [], result := .error t })
    ∧ (∀ (p : Plugin C Out) (rest : List (Plugin C Out)) (config : C) (t : Thrown),
        p.promptForConfig config opts = .error t →
        t ≠ .errObj ("Configuration cancelled") →
        runConfigPrompts (p :: rest) config opts =
          { saves := (runConfigPrompts rest config opts).saves,
            events := .promptFailed p.id (thrownMessage t)
              :: (runConfigPrompts rest config opts).events,
            result := (runConfigPrompts rest config opts).result }) := by
  refine ⟨?_, ?_, ?_⟩
  · intro plugins
    induction plugins with
    | nil => intro config t h; simp [runConfigPrompts, runCfgAux] at h
    | cons p tl ih =>
      intro config t h
      simp only [runConfigPrompts, runCfgAux] at h
      cases hp : p.promptForConfig config opts with
      | ok ret =>
        cases ret with
        | same => simp only [hp] at h; exact ih config t h
        | fresh c => simp only [hp] at h; exact ih c t h
      | error u =>
        by_cases hc : isCancellation u
        · simp only [hp, hc, if_true] at h
          cases h
          exact (isCancellation_iff t).mp hc
        · simp only [hp, hc, if_false] at h
          exact ih config t h
  · intro p rest config t hp ht
    have hc : isCancellation t = true := (isCancellation_iff t).mpr ht
    simp [runConfigPrompts, runCfgAux, hp, hc]
  · intro p rest config t hp ht
    have hc : isCancellation t = false := by
      by_cases h : isCancellation t
      · exact absurd ((isCancellation_iff t).mp h) ht
      · simpa using h
    simp [runConfigPrompts, runCfgAux, hp, hc]

/-- C4: when a configuration step signals the cancellation condition, the
whole pass re-raises that very value, consults none of the remaining
producers (the result does not depend on them), and the saves performed for
the producers completed before the cancellation are exactly preserved; and
every step returning a new configuration object has it persisted before the
next producer is consulted. -/
theorem runConfigPrompts_cancellation_checkpoint (opts : PromptConfigOptions) :
    (∀ (pre : List (Plugin C Out)) (p : Plugin C Out) (post : List (Plugin C Out))
        (config cur : C) (saves0 : List C) (ev0 : List CfgEvent) (t : Thrown),
        runCfgAux opts pre config = { saves := saves0, events := ev0, result := .ok cur } →
        p.promptForConfig cur opts = .error t →
        isCancellation t = true →
        runConfigPrompts (pre ++ p :: post) config opts =
          { saves := saves0, events := ev0, result := .error t })
    ∧ (∀ (q : Plugin C Out) (rest : List (Plugin C Out)) (cur c : C),
        q.promptForConfig cur opts = .ok (.fresh c) →
        (runCfgAux opts (q :: rest) cur).saves = c :: (runCfgAux opts rest c).saves) := by
  constructor
  · intro pre p post config cur saves0 ev0 t hpre hp hc
    have hres : (runCfgAux opts pre config).result = .ok cur := by rw [hpre]
    have happ := runCfgAux_append_ok opts pre (p :: post) config cur hres
    have hstep : runCfgAux opts (p :: post) cur =
        { saves := [], events := [], result := .error t } := by
      simp [runCfgAux, hp, hc]
    simp only [runConfigPrompts, happ, hstep, hpre, List.append_nil]
  · intro q rest cur c hq
    simp [runCfgAux, hq]

/-- C8: registering a descriptor whose identity is already registered fails
with the duplicate-identity error naming that identity, and the registry
state after the call, both the stored descriptors and the cached order, is
exactly the state before it. -/
theorem register_unchanged_on_duplicate (m : PluginManager C Out) (p : Plugin C Out)
    (h : ∃ q ∈ m.plugins, q.id = p.id) :
    register m p = (.error (duplicateMessage p.id), m) := by
  rcases h with ⟨q, hq, hid⟩
  have hany : m.plugins.any (fun q => q.id == p.id) = true :=
    List.any_eq_true.mpr ⟨q, hq, by simp [hid]⟩
  simp [register, hany]

theorem buildDeps_foldl (needs : List String) (outputs : List (String × Out))
    (acc : List (String × Out)) (d : String) :
    lookupKey
        (needs.foldl
          (fun deps depId =>
            match lookupKey outputs depId with
            | some v => setKey deps depId v
            | none => deps)
          acc) d =
      if d ∈ needs ∧ (lookupKey outputs d).isSome then lookupKey outputs d
      else lookupKey acc d := by
  induction needs generalizing acc with
  | nil => simp
  | cons n ns ih =>
    simp only [List.foldl_cons]
    rw [ih]
    by_cases hmem : d ∈ ns ∧ (lookupKey outputs d).isSome
    · simp only [hmem, if_true]
      have : d ∈ n :: ns ∧ (lookupKey outputs d).isSome := ⟨.tail n hmem.1, hmem.2⟩
      simp [this]
    · simp only [hmem, if_false]
      by_cases hdn : d = n
      · subst hdn
        cases hout : lookupKey outputs d with
        | some v =>
          have : d ∈ d :: ns ∧ (lookupKey outputs d).isSome := by simp [hout]
          simp [this, hout, lookupKey_setKey]
        | none =>
          have : ¬(d ∈ d :: ns ∧ (lookupKey outputs d).isSome) := by simp [hout]
          simp [this, hout]
      · have hiff : (d ∈ n :: ns ∧ (lookupKey outputs d).isSome) ↔
            (d ∈ ns ∧ (lookupKey outputs d).isSome) := by
          constructor
          · rintro ⟨hm, hs⟩
            cases hm with
            | head => exact absurd rfl hdn
            | tail _ hm2 => exact ⟨hm2, hs⟩
          · rintro ⟨hm, hs⟩
            exact ⟨.tail n hm, hs⟩
        rw [if_neg (fun hx => hmem (hiff.mp hx))]
        cases hout : lookupKey outputs n with
        | some v => simp [lookupKey_setKey, Ne.symm hdn]
        | none => simp

/-- C5: the dependency view built for a producer binds exactly the identities
listed in its needs that have an output payload in the outputs map: reading
any key of the view yields the output payload when the key is a declared need
with a recorded output, and nothing otherwise, so undeclared identities never
appear and absent dependencies are omitted rather than defaulted. -/
theorem buildDeps_exact_view (needs : List String) (outputs : List (String × Out))
    (d : String) :
    lookupKey (buildDeps needs outputs) d =
      if d ∈ needs then lookupKey outputs d else none := by
  have h := buildDeps_foldl needs outputs [] d
  simp only [buildDeps]
  rw [h]
  by_cases hmem : d ∈ needs
  · cases hout : lookupKey outputs d with
    | some v => simp [hmem, hout]
    | none => simp [hmem, hout]
  · simp [hmem]

/-- C9: a tri-state configuration field already decided as declined, with the
reset option unset, is left untouched by the owning configuration step, which
returns the configuration object it was given and invokes no interactive
prompt: this holds for the GitHub token field of the GitHub plugin and for
the template path and inline-content fields of the template plugin. -/
theorem declined_field_skips_prompt :
    (∀ (ans : GitHubAnswers) (config : ResumeConfig) (options : PromptConfigOptions),
        options.reset = false →
        config.githubToken = ("$declined") →
        githubPromptForConfig ans config options = (.ok .same, []))
    ∧ (∀ (ans : TemplateAnswers) (config : ResumeConfig) (options : PromptConfigOptions),
        options.reset = false →
        (config.templatePath = ("$declined") ∨ config.templateContent = ("$declined")) →
        templatePromptForConfig ans config options = (.ok .same, [])) := by
  constructor
  · intro ans config options hreset htok
    have hne : config.githubToken ≠ ("$pending") := by
      rw [htok]; decide
    simp [githubPromptForConfig, hreset, hne]
  · intro ans config options hreset hdecl
    have hr : ¬(options.reset = true) := by simp [hreset]
    simp only [templatePromptForConfig]
    by_cases h1 : (config.templateContent ≠ ("$pending")
        ∧ config.templateContent ≠ ("$declined")) ∧ ¬(options.reset = true)
    · rw [if_pos h1]
    · rw [if_neg h1]
      by_cases h2 : (config.templatePath ≠ ("$pending")
          ∧ config.templatePath ≠ ("$declined")) ∧ ¬(options.reset = true)
          ∧ ans.fsExists config.templatePath = true
      · rw [if_pos h2]
      · rw [if_neg h2, if_pos ⟨hr, hdecl⟩]

theorem mem_insertSection (s x : PluginContentSection) (l : List PluginContentSection) :
    x ∈ insertSection s l ↔ x = s ∨ x ∈ l := by
  induction l with
  | nil => simp [insertSection]
  | cons t ts ih =>
    by_cases h : t.priority < s.priority
    · simp only [insertSection, if_pos h, List.mem_cons, ih]
      tauto
    · simp only [insertSection, if_neg h, List.mem_cons]

theorem pairwise_insertSection (s : PluginContentSection) (l : List PluginContentSection)
    (h : l.Pairwise (fun a b => a.priority ≤ b.priority)) :
    (insertSection s l).Pairwise (fun a b => a.priority ≤ b.priority) := by
  induction l with
  | nil => simp [insertSection]
  | cons t ts ih =>
    rcases List.pairwise_cons.mp h with ⟨ht, hts⟩
    by_cases hlt : t.priority < s.priority
    · simp only [insertSection, if_pos hlt]
      refine List.pairwise_cons.mpr ⟨?_, ih hts⟩
      intro x hx
      rcases (mem_insertSection s x ts).mp hx with hx | hx
      · exact hx ▸ le_of_lt hlt
      · exact ht x hx
    · simp only [insertSection, if_neg hlt]
      refine List.pairwise_cons.mpr ⟨?_, h⟩
      intro x hx
      rcases List.mem_cons.mp hx with hx | hx
      · exact hx ▸ le_of_not_lt hlt
      · exact le_trans (le_of_not_lt hlt) (ht x hx)

theorem filter_insertSection (s : PluginContentSection) (l : List PluginContentSection)
    (pr : Int) :
    (insertSection s l).filter (fun x => x.priority == pr) =
      if s.priority = pr then s :: l.filter (fun x => x.priority == pr)
      else l.filter (fun x => x.priority == pr) := by
  induction l with
  | nil =>
    by_cases h : s.priority = pr <;> simp [insertSection, List.filter_cons, h]
  | cons t ts ih =>
    by_cases hlt : t.priority < s.priority
    · simp only [insertSection, if_pos hlt]
      by_cases hs : s.priority = pr
      · have htpr : (t.priority == pr) = false := by
          have : t.priority ≠ pr := by
            intro hc
            rw [hs] at hlt
            rw [hc] at hlt
            exact lt_irrefl pr hlt
          simp [this]
        simp [List.filter_cons, htpr, ih, hs]
      · simp [List.filter_cons, ih, hs]
    · simp only [insertSection, if_neg hlt]
      by_cases hs : s.priority = pr <;> simp [List.filter_cons, hs]

theorem sortSections_pairwise (l : List PluginContentSection) :
    (sortSections l).Pairwise (fun a b => a.priority ≤ b.priority) := by
  induction l with
  | nil => simp [sortSections]
  | cons s rest ih => exact pairwise_insertSection s (sortSections rest) ih

theorem sortSections_filter (l : List PluginContentSection) (pr : Int) :
    (sortSections l).filter (fun x => x.priority == pr) =
      l.filter (fun x => x.priority == pr) := by
  induction l with
  | nil => rfl
  | cons s rest ih =>
    simp only [sortSections, filter_insertSection, ih, List.filter_cons]
    by_cases hs : s.priority = pr <;> simp [hs]

/-- C7: the fragment sequence returned by execute is the stable
ascending-priority sort of the fragments in emission order: it is pairwise
sorted by priority, and for every priority value the subsequence of fragments
of that priority is exactly the emission-order subsequence, so equal-priority
fragments keep the relative order in which the execution pass emitted them. -/
theorem execute_sections_sorted_stable (plugins : List (Plugin C Out)) (config : C)
    (st : ExecState Out)
    (h : execAux config plugins { outputs := [], sections := [], trace := [] } = .ok st) :
    execute plugins config = .ok (sortSections st.sections)
    ∧ (sortSections st.sections).Pairwise (fun a b => a.priority ≤ b.priority)
    ∧ ∀ pr : Int,
        (sortSections st.sections).filter (fun x => x.priority == pr) =
          st.sections.filter (fun x => x.priority == pr) := by
  refine ⟨?_, sortSections_pairwise st.sections, fun pr => sortSections_filter st.sections pr⟩
  simp [execute, h, Except.map]

theorem execAux_append (config : C) (l1 l2 : List (Plugin C Out)) (st : ExecState Out) :
    execAux config (l1 ++ l2) st =
      match execAux config l1 st with
      | .error t => .error t
      | .ok st1 => execAux config l2 st1 := by
  induction l1 generalizing st with
  | nil => simp [execAux]
  | cons p tl ih =>
    simp only [List.cons_append, execAux]
    cases hstep : execStep config st p with
    | error t => rfl
    | ok st1 => exact ih st1

theorem execStep_outputs (config : C) (st : ExecState Out) (p : Plugin C Out)
    (st1 : ExecState Out) (h : execStep config st p = .ok st1) :
    (∀ x, x ≠ p.id → lookupKey st1.outputs x = lookupKey st.outputs x)
    ∧ lookupKey st1.outputs p.id =
        (match p.canRun config (buildDeps p.needs st.outputs),
               p.generateContent config (buildDeps p.needs st.outputs) with
         | .ok true, .ok (some r) => some r.output
         | _, _ => lookupKey st.outputs p.id) := by
  cases hcr : p.canRun config (buildDeps p.needs st.outputs) with
  | error t =>
    simp [execStep, hcr] at h
  | ok b =>
    cases b with
    | false =>
      simp only [execStep, hcr] at h
      injection h with h
      subst h
      exact ⟨fun x _ => rfl, by simp [hcr]⟩
    | true =>
      cases hgen : p.generateContent config (buildDeps p.needs st.outputs) with
      | error t =>
        simp only [execStep, hcr, hgen] at h
        injection h with h
        subst h
        exact ⟨fun x _ => rfl, by simp [hcr, hgen]⟩
      | ok res =>
        cases res with
        | none =>
          simp only [execStep, hcr, hgen] at h
          injection h with h
          subst h
          exact ⟨fun x _ => rfl, by simp [hcr, hgen]⟩
        | some r =>
          by_cases hemp : r.sections.isEmpty
          · simp only [execStep, hcr, hgen, hemp, if_true] at h
            injection h with h
            subst h
            constructor
            · intro x hx
              simp [lookupKey_setKey, Ne.symm hx]
            · simp [hcr, hgen, lookupKey_setKey]
          · simp only [execStep, hcr, hgen, hemp, if_false] at h
            injection h with h
            subst h
            constructor
            · intro x hx
              simp [lookupKey_setKey, Ne.symm hx]
            · simp [hcr, hgen, lookupKey_setKey]

theorem execAux_outputs_frame (config : C) (l : List (Plugin C Out))
    (st st1 : ExecState Out) (x : String)
    (hx : ¬ x ∈ l.map (fun p => p.id)) (h : execAux config l st = .ok st1) :
    lookupKey st1.outputs x = lookupKey st.outputs x := by
  induction l generalizing st with
  | nil => cases h; rfl
  | cons p tl ih =>
    cases hstep : execStep config st p with
    | error t =>
      simp [execAux, hstep] at h
    | ok st2 =>
      simp only [execAux, hstep] at h
      have hxp : x ≠ p.id := by
        intro hc
        exact hx (by simp [hc])
      have htl : ¬ x ∈ tl.map (fun p => p.id) := by
        intro hc
        exact hx (by simp [hc])
      rw [ih st2 htl h]
      exact (execStep_outputs config st p st2 hstep).1 x hxp

/-- C1 (amended): a value thrown by the generation step is recovered locally:
the step is logged as started and its error message logged, that producer's
output and fragments are not recorded, and the pass continues with the
remaining producers from an otherwise unchanged state; moreover if no
eligibility check throws, no error escapes the plugin loop. (The unamended
claim fails because the eligibility check runs outside the try block, see the
counterexample.) -/
theorem execute_generateContent_error_isolated (config : C) :
    (∀ (p : Plugin C Out) (rest : List (Plugin C Out)) (st : ExecState Out) (t : Thrown),
        p.canRun config (buildDeps p.needs st.outputs) = .ok true →
        p.generateContent config (buildDeps p.needs st.outputs) = .error t →
        execAux config (p :: rest) st =
          execAux config rest
            { outputs := st.outputs, sections := st.sections,
              trace := st.trace ++ [.started p.id, .errorLogged p.id (thrownMessage t)] })
    ∧ (∀ (plugins : List (Plugin C Out)) (st : ExecState Out),
        (∀ p ∈ plugins, ∀ deps, ∃ b, p.canRun config deps = .ok b) →
        ∃ stf, execAux config plugins st = .ok stf) := by
  constructor
  · intro p rest st t hcan hgen
    simp only [execAux, execStep, hcan, hgen]
    rw [List.append_assoc]
    rfl
  · intro plugins
    induction plugins with
    | nil => intro st _; exact ⟨st, rfl⟩
    | cons p tl ih =>
      intro st htot
      have htl : ∀ q ∈ tl, ∀ deps, ∃ b, q.canRun config deps = .ok b :=
        fun q hq => htot q (List.mem_cons_of_mem p hq)
      rcases htot p (List.mem_cons_self p tl) (buildDeps p.needs st.outputs) with ⟨b, hb⟩
      have hstep : ∃ st2, execStep config st p = .ok st2 := by
        cases b with
        | false =>
          exact ⟨{ outputs := st.outputs, sections := st.sections,
                   trace := st.trace ++ [.skipped p.id] }, by simp [execStep, hb]⟩
        | true =>
          cases hgen : p.generateContent config (buildDeps p.needs st.outputs) with
          | error t =>
            exact ⟨{ outputs := st.outputs, sections := st.sections,
                     trace := st.trace ++ [.started p.id]
                       ++ [.errorLogged p.id (thrownMessage t)] },
              by simp [execStep, hb, hgen]⟩
          | ok res =>
            cases res with
            | none =>
              exact ⟨{ outputs := st.outputs, sections := st.sections,
                       trace := st.trace ++ [.started p.id] ++ [.returnedNull p.id] },
                by simp [execStep, hb, hgen]⟩
            | some r =>
              by_cases hemp : r.sections.isEmpty
              · exact ⟨{ outputs := setKey st.outputs p.id r.output,
                         sections := st.sections,
                         trace := st.trace ++ [.started p.id] ++ [.noContent p.id] },
                  by simp [execStep, hb, hgen, hemp]⟩
              · exact ⟨{ outputs := setKey st.outputs p.id r.output,
                         sections := st.sections ++ r.sections,
                         trace := st.trace ++ [.started p.id]
                           ++ [.generated p.id r.sections.length] },
                  by simp [execStep, hb, hgen, hemp]⟩
      rcases hstep with ⟨st2, hst2⟩
      rcases ih st2 htl with ⟨stf, hstf⟩
      refine ⟨stf, ?_⟩
      simp only [execAux, hst2]
      exact hstf

/-- C2 (amended): in a completed run, an output payload is recorded under a
producer identity exactly when, at that producer's position in the pass, the
eligibility check returned true and the generation step completed without
throwing AND returned a non-null result; and in that case the recorded
payload is exactly that result's output field. (The unamended claim fails
because a non-throwing generation step returning null records no output, see
the counterexample.) -/
theorem execute_output_recorded_iff (config : C) (plugins : List (Plugin C Out))
    (stf : ExecState Out) (p : Plugin C Out)
    (hnd : (plugins.map (fun q => q.id)).Nodup)
    (hp : p ∈ plugins)
    (hrun : execAux config plugins { outputs := [], sections := [], trace := [] } = .ok stf) :
    ((∃ v, lookupKey stf.outputs p.id = some v) ↔
      ∃ pre post stm r,
        plugins = pre ++ p :: post
        ∧ execAux config pre { outputs := [], sections := [], trace := [] } = .ok stm
        ∧ p.canRun config (buildDeps p.needs stm.outputs) = .ok true
        ∧ p.generateContent config (buildDeps p.needs stm.outputs) = .ok (some r))
    ∧ ∀ pre post stm r,
        plugins = pre ++ p :: post →
        execAux config pre { outputs := [], sections := [], trace := [] } = .ok stm →
        p.canRun config (buildDeps p.needs stm.outputs) = .ok true →
        p.generateContent config (buildDeps p.needs stm.outputs) = .ok (some r) →
        lookupKey stf.outputs p.id = some r.output := by
  have hcore : ∀ pre post stm, plugins = pre ++ p :: post →
      execAux config pre { outputs := [], sections := [], trace := [] } = .ok stm →
      ∃ stp, execStep config stm p = .ok stp
        ∧ lookupKey stf.outputs p.id = lookupKey stp.outputs p.id
        ∧ lookupKey stm.outputs p.id = none := by
    intro pre post stm hsplit hpre
    have hnd2 := hnd
    rw [hsplit, List.map_append, List.nodup_append] at hnd2
    rcases hnd2 with ⟨_, hnd2, hdisj⟩
    have hppre : ¬ p.id ∈ pre.map (fun q => q.id) := by
      intro hc
      exact (hdisj hc (by simp)).elim
    have hppost : ¬ p.id ∈ post.map (fun q => q.id) := by
      rw [List.map_cons] at hnd2
      exact (List.nodup_cons.mp hnd2).1
    have hrun2 := hrun
    rw [hsplit, execAux_append] at hrun2
    simp only [hpre] at hrun2
    cases hstep : execStep config stm p with
    | error t => simp [execAux, hstep] at hrun2
    | ok stp =>
      simp only [execAux, hstep] at hrun2
      refine ⟨stp, rfl, ?_, ?_⟩
      · exact execAux_outputs_frame config post stp stf p.id hppost hrun2
      · rw [execAux_outputs_frame config pre _ stm p.id hppre hpre]
        rfl
  have hrecord : ∀ pre post stm r, plugins = pre ++ p :: post →
      execAux config pre { outputs := [], sections := [], trace := [] } = .ok stm →
      p.canRun config (buildDeps p.needs stm.outputs) = .ok true →
      p.generateContent config (buildDeps p.needs stm.outputs) = .ok (some r) →
      lookupKey stf.outputs p.id = some r.output := by
    intro pre post stm r hsplit hpre hcr hgen
    obtain ⟨stp, hstep, hfinal, _⟩ := hcore pre post stm hsplit hpre
    have hself := (execStep_outputs config stm p stp hstep).2
    simp only [hcr, hgen] at hself
    rw [hfinal]
    exact hself
  refine ⟨⟨?_, ?_⟩, hrecord⟩
  · rintro ⟨v, hv⟩
    rcases List.append_of_mem hp with ⟨pre, post, hsplit⟩
    have hrun2 := hrun
    rw [hsplit, execAux_append] at hrun2
    cases hpre : execAux config pre { outputs := [], sections := [], trace := [] } with
    | error t => simp [hpre] at hrun2
    | ok stm =>
      obtain ⟨stp, hstep, hfinal, hmidnone⟩ := hcore pre post stm hsplit hpre
      have hself := (execStep_outputs config stm p stp hstep).2
      cases hcr : p.canRun config (buildDeps p.needs stm.outputs) with
      | error t =>
        simp only [hcr] at hself
        rw [hfinal, hself, hmidnone] at hv
        exact absurd hv (by simp)
      | ok b =>
        cases b with
        | false =>
          simp only [hcr] at hself
          rw [hfinal, hself, hmidnone] at hv
          exact absurd hv (by simp)
        | true =>
          cases hgen : p.generateContent config (buildDeps p.needs stm.outputs) with
          | error t =>
            simp only [hcr, hgen] at hself
            rw [hfinal, hself, hmidnone] at hv
            exact absurd hv (by simp)
          | ok res =>
            cases res with
            | none =>
              simp only [hcr, hgen] at hself
              rw [hfinal, hself, hmidnone] at hv
              exact absurd hv (by simp)
            | some r => exact ⟨pre, post, stm, r, hsplit, hpre, hcr, hgen⟩
  · rintro ⟨pre, post, stm, r, hsplit, hpre, hcr, hgen⟩
    exact ⟨r.output, hrecord pre post stm r hsplit hpre hcr hgen⟩

theorem findPlugin_eq_some {plugins : List (Plugin C Out)} {id : String}
    {p : Plugin C Out} (h : findPlugin plugins id = some p) :
    p.id = id ∧ p ∈ plugins := by
  unfold findPlugin at h
  have h1 := List.find?_some h
  have h2 := List.mem_of_find?_eq_some h
  exact ⟨by simpa using h1, h2⟩

theorem isRegistered_of_mem {plugins : List (Plugin C Out)} {p : Plugin C Out}
    (h : p ∈ plugins) : isRegistered plugins p.id = true := by
  unfold isRegistered findPlugin
  cases hf : plugins.find? (fun q => q.id == p.id) with
  | none =>
    have := List.find?_eq_none.mp hf p h
    simp at this
  | some q => rfl

theorem mem_ids_of_registered {plugins : List (Plugin C Out)} {id : String}
    (h : isRegistered plugins id = true) : id ∈ plugins.map (fun p => p.id) := by
  unfold isRegistered at h
  cases hf : findPlugin plugins id with
  | none => rw [hf] at h; simp at h
  | some p =>
    rcases findPlugin_eq_some hf with ⟨hid, hmem⟩
    exact List.mem_map.mpr ⟨p, hmem, hid⟩

theorem findPlugin_self {plugins : List (Plugin C Out)}
    (hnd : (plugins.map (fun p => p.id)).Nodup) {p : Plugin C Out} (hp : p ∈ plugins) :
    findPlugin plugins p.id = some p := by
  induction plugins with
  | nil => simp at hp
  | cons q tl ih =>
    rw [List.map_cons, List.nodup_cons] at hnd
    rcases List.mem_cons.mp hp with hp | hp
    · subst hp
      simp [findPlugin, List.find?]
    · have hne : (q.id == p.id) = false := by
        have : ¬ q.id = p.id := fun hc => hnd.1 (hc ▸ List.mem_map.mpr ⟨p, hp, rfl⟩)
        simp [this]
      have := ih hnd.2 hp
      unfold findPlugin at this ⊢
      simp [List.find?, hne, this]

theorem runSeq_post_aux (plugins : List (Plugin C Out))
    (f : String → SortState C Out → Except SortError (SortState C Out))
    (hf : ∀ d s s1, f d s = .ok s1 →
      s1.visiting = s.visiting ∧ (∀ x ∈ s.visited, x ∈ s1.visited)
      ∧ (isRegistered plugins d = true → d ∈ s1.visited)) :
    ∀ (ds : List String) (st st1 : SortState C Out), runSeq f ds st = .ok st1 →
      st1.visiting = st.visiting ∧ (∀ x ∈ st.visited, x ∈ st1.visited)
      ∧ ∀ d ∈ ds, isRegistered plugins d = true → d ∈ st1.visited := by
  intro ds
  induction ds with
  | nil =>
    intro st st1 h
    injection h with h
    subst h
    exact ⟨rfl, fun x hx => hx, by simp⟩
  | cons d ds ih =>
    intro st st1 h
    simp only [runSeq] at h
    cases hstep : f d st with
    | error e => simp [hstep] at h
    | ok s2 =>
      simp only [hstep] at h
      obtain ⟨hv2, hm2, hd2⟩ := hf d st s2 hstep
      obtain ⟨hv1, hm1, hall⟩ := ih s2 st1 h
      refine ⟨hv1.trans hv2, fun x hx => hm1 x (hm2 x hx), ?_⟩
      intro e he hreg
      rcases List.mem_cons.mp he with he | he
      · subst he
        exact hm1 e (hd2 hreg)
      · exact hall e he hreg

theorem visit_post (plugins : List (Plugin C Out)) :
    ∀ (fuel : Nat) (id : String) (st st1 : SortState C Out),
      visit plugins fuel id st = .ok st1 →
      st1.visiting = st.visiting ∧ (∀ x ∈ st.visited, x ∈ st1.visited)
      ∧ (isRegistered plugins id = true → id ∈ st1.visited) := by
  intro fuel
  induction fuel with
  | zero => intro id st st1 h; simp [visit] at h
  | succ fuel ih =>
    intro id st st1 h
    simp only [visit] at h
    by_cases hvd : id ∈ st.visited
    · rw [if_pos hvd] at h
      injection h with h
      subst h
      exact ⟨rfl, fun x hx => hx, fun _ => hvd⟩
    · rw [if_neg hvd] at h
      by_cases hvg : id ∈ st.visiting
      · rw [if_pos hvg] at h
        simp at h
      · rw [if_neg hvg] at h
        cases hfp : findPlugin plugins id with
        | none =>
          simp only [hfp] at h
          injection h with h
          subst h
          refine ⟨rfl, fun x hx => hx, ?_⟩
          intro hreg
          rw [isRegistered, hfp] at hreg
          simp at hreg
        | some p =>
          simp only [hfp] at h
          cases hrs : runSeq (fun d s => visit plugins fuel d s) p.needs
              { st with visiting := id :: st.visiting } with
          | error e => simp [hrs] at h
          | ok st2 =>
            simp only [hrs] at h
            injection h with h
            subst h
            obtain ⟨hv, hm, _⟩ :=
              runSeq_post_aux plugins _ (fun d s s1 hds => ih d s s1 hds) p.needs _ st2 hrs
            refine ⟨?_, ?_, fun _ => by simp⟩
            · show st2.visiting.erase id = st.visiting
              rw [hv]
              exact List.erase_cons_head id st.visiting
            · intro x hx
              exact List.mem_cons_of_mem id (hm x hx)

theorem runSeq_error_split (f : String → SortState C Out → Except SortError (SortState C Out))
    (hf : ∀ d s s1, f d s = .ok s1 → s1.visiting = s.visiting) :
    ∀ (ds : List String) (st : SortState C Out) (e : SortError),
      runSeq f ds st = .error e →
      ∃ d s, d ∈ ds ∧ s.visiting = st.visiting ∧ f d s = .error e := by
  intro ds
  induction ds with
  | nil => intro st e h; simp [runSeq] at h
  | cons d ds ih =>
    intro st e h
    simp only [runSeq] at h
    cases hstep : f d st with
    | error e0 =>
      simp only [hstep] at h
      injection h with h
      subst h
      exact ⟨d, st, List.mem_cons_self d ds, rfl, hstep⟩
    | ok s2 =>
      simp only [hstep] at h
      rcases ih s2 e h with ⟨d1, s1, hmem, hvis, herr⟩
      exact ⟨d1, s1, List.mem_cons_of_mem d hmem, hvis.trans (hf d st s2 hstep), herr⟩

theorem length_filter_le_of_imp {α : Type} (p q : α → Bool) (l : List α)
    (h : ∀ a, p a = true → q a = true) :
    (l.filter p).length ≤ (l.filter q).length := by
  induction l with
  | nil => simp
  | cons a t ih =>
    rw [List.filter_cons, List.filter_cons]
    by_cases hp : p a = true
    · rw [if_pos hp, if_pos (h a hp)]
      exact Nat.succ_le_succ ih
    · rw [if_neg hp]
      by_cases hq : q a = true
      · rw [if_pos hq]
        exact Nat.le_trans ih (Nat.le_succ _)
      · rw [if_neg hq]
        exact ih

theorem length_filter_lt_of_witness {α : Type} (p q : α → Bool) (l : List α)
    (h : ∀ a, p a = true → q a = true) (x : α) (hx : x ∈ l)
    (hqx : q x = true) (hpx : p x = false) :
    (l.filter p).length < (l.filter q).length := by
  induction l with
  | nil => simp at hx
  | cons a t ih =>
    rw [List.filter_cons, List.filter_cons]
    by_cases hax : a = x
    · subst hax
      have hnp : ¬ p a = true := by simp [hpx]
      rw [if_neg hnp, if_pos hqx]
      exact Nat.lt_succ_of_le (length_filter_le_of_imp p q t h)
    · have hxt : x ∈ t := by
        rcases List.mem_cons.mp hx with hc | hc
        · exact absurd hc.symm hax
        · exact hc
      by_cases hp : p a = true
      · rw [if_pos hp, if_pos (h a hp)]
        exact Nat.succ_lt_succ (ih hxt)
      · rw [if_neg hp]
        by_cases hq : q a = true
        · rw [if_pos hq]
          exact Nat.lt_succ_of_lt (ih hxt)
        · rw [if_neg hq]
          exact ih hxt

theorem remFuel_lt_aux (ids v : List String) (id : String)
    (hid : id ∈ ids) (hnv : ¬ id ∈ v) :
    (ids.filter (fun y => decide (¬ y ∈ id :: v))).length <
      (ids.filter (fun y => decide (¬ y ∈ v))).length := by
  apply length_filter_lt_of_witness _ _ ids ?_ id hid (by simp [hnv]) (by simp)
  intro a ha
  rw [decide_eq_true_eq] at ha ⊢
  exact fun hc => ha (List.mem_cons_of_mem id hc)

theorem remFuel_congr (plugins : List (Plugin C Out)) (s t : SortState C Out)
    (h : s.visiting = t.visiting) : remFuel plugins s = remFuel plugins t := by
  unfold remFuel
  rw [h]

theorem visit_no_fuel (plugins : List (Plugin C Out)) :
    ∀ (fuel : Nat) (id : String) (st : SortState C Out),
      remFuel plugins st < fuel →
      visit plugins fuel id st ≠ .error .outOfFuel := by
  intro fuel
  induction fuel with
  | zero => intro id st hlt; exact absurd hlt (Nat.not_lt_zero _)
  | succ fuel ih =>
    intro id st hlt h
    simp only [visit] at h
    by_cases hvd : id ∈ st.visited
    · rw [if_pos hvd] at h; simp at h
    · rw [if_neg hvd] at h
      by_cases hvg : id ∈ st.visiting
      · rw [if_pos hvg] at h; simp at h
      · rw [if_neg hvg] at h
        cases hfp : findPlugin plugins id with
        | none => simp only [hfp] at h; simp at h
        | some p =>
          simp only [hfp] at h
          cases hrs : runSeq (fun d s => visit plugins fuel d s) p.needs
              { st with visiting := id :: st.visiting } with
          | ok st2 => simp [hrs] at h
          | error e =>
            simp only [hrs] at h
            injection h with h
            subst h
            rcases runSeq_error_split _
                (fun d s s1 hds => (visit_post plugins fuel d s s1 hds).1) p.needs _ _ hrs with
              ⟨d, s, _, hvis, herr⟩
            have hidreg : id ∈ plugins.map (fun p => p.id) := by
              apply mem_ids_of_registered
              rw [isRegistered, hfp]
              rfl
            have hdec : remFuel plugins { st with visiting := id :: st.visiting } <
                remFuel plugins st := by
              unfold remFuel
              exact remFuel_lt_aux (plugins.map (fun p => p.id)) st.visiting id hidreg hvg
            have hs : remFuel plugins s < fuel := by
              have := remFuel_congr plugins s { st with visiting := id :: st.visiting } hvis
              omega
            exact ih d s hs herr

theorem topologicalSort_not_fuel (plugins : List (Plugin C Out)) :
    topologicalSort plugins ≠ .error .outOfFuel := by
  intro h
  unfold topologicalSort at h
  cases hrs : runSeq (fun d s => visit plugins (plugins.length + 1) d s)
      (plugins.map (fun p => p.id)) { sorted := [], visited := [], visiting := [] } with
  | ok st => simp [hrs] at h
  | error e =>
    simp only [hrs] at h
    injection h with h
    subst h
    rcases runSeq_error_split _
        (fun d s s1 hds => (visit_post plugins (plugins.length + 1) d s s1 hds).1)
        (plugins.map (fun p => p.id)) _ _ hrs with ⟨d, s, _, hvis, herr⟩
    have hrem : remFuel plugins s < plugins.length + 1 := by
      have h1 : remFuel plugins s =
          remFuel plugins { sorted := [], visited := [], visiting := [] } :=
        remFuel_congr plugins s _ hvis
      have h2 : remFuel plugins
          ({ sorted := [], visited := [], visiting := [] } : SortState C Out) =
          (plugins.map (fun p => p.id)).length := by
        unfold remFuel
        simp
      rw [h1, h2, List.length_map]
      omega
    exact visit_no_fuel plugins (plugins.length + 1) d s hrem herr

theorem stackChain_registered (plugins : List (Plugin C Out)) :
    ∀ v, StackChain plugins v → ∀ x ∈ v, isRegistered plugins x = true := by
  intro v
  induction v with
  | nil => intro _ x hx; simp at hx
  | cons a tail ih =>
    intro hchain x hx
    cases tail with
    | nil =>
      rcases List.mem_singleton.mp hx with rfl
      exact hchain
    | cons b rest =>
      rcases hchain with ⟨ha, _, hrest⟩
      rcases List.mem_cons.mp hx with rfl | hx
      · exact ha
      · exact ih hrest x hx

theorem stackChain_path (plugins : List (Plugin C Out)) :
    ∀ (a : List String) (c : String) (b v : List String), v = a ++ c :: b →
      StackChain plugins v →
      ∀ h0 t0, v = h0 :: t0 → Relation.ReflTransGen (depEdge plugins) c h0 := by
  intro a
  induction a with
  | nil =>
    intro c b v hv hchain h0 t0 hv2
    rw [hv] at hv2
    injection hv2 with h1 _
    subst h1
    exact Relation.ReflTransGen.refl
  | cons x a1 ih =>
    intro c b v hv hchain h0 t0 hv2
    rw [hv] at hv2
    rw [List.cons_append] at hv2
    injection hv2 with h1 h2
    subst h1
    cases ht : a1 ++ c :: b with
    | nil => exact absurd ht (by simp)
    | cons y rest =>
      rw [hv, List.cons_append, ht] at hchain
      rcases hchain with ⟨_, hedge, hrest⟩
      have hpath : Relation.ReflTransGen (depEdge plugins) c y := by
        apply ih c b (a1 ++ c :: b) rfl ?_ y rest ht
        rw [ht]
        exact hrest
      exact Relation.ReflTransGen.tail hpath hedge

theorem visit_circular_sound (plugins : List (Plugin C Out)) :
    ∀ (fuel : Nat) (id : String) (st : SortState C Out) (c : String),
      StackChain plugins st.visiting →
      (∀ h0 t0, st.visiting = h0 :: t0 → isRegistered plugins id = true →
        depEdge plugins h0 id) →
      visit plugins fuel id st = .error (.circular c) →
      Relation.TransGen (depEdge plugins) c c := by
  intro fuel
  induction fuel with
  | zero => intro id st c _ _ h; simp [visit] at h
  | succ fuel ih =>
    intro id st c hchain hcall h
    simp only [visit] at h
    by_cases hvd : id ∈ st.visited
    · rw [if_pos hvd] at h; simp at h
    · rw [if_neg hvd] at h
      by_cases hvg : id ∈ st.visiting
      · rw [if_pos hvg] at h
        injection h with h
        injection h with h
        subst h
        rcases List.append_of_mem hvg with ⟨a, b, hab⟩
        cases hv : st.visiting with
        | nil => rw [hv] at hvg; simp at hvg
        | cons h0 t0 =>
          have hreg : isRegistered plugins id = true :=
            stackChain_registered plugins st.visiting hchain id hvg
          have hedge : depEdge plugins h0 id := hcall h0 t0 hv hreg
          have hpath : Relation.ReflTransGen (depEdge plugins) id h0 :=
            stackChain_path plugins a id b st.visiting hab hchain h0 t0 hv
          exact Relation.TransGen.tail' hpath hedge
      · rw [if_neg hvg] at h
        cases hfp : findPlugin plugins id with
        | none => simp only [hfp] at h; simp at h
        | some p =>
          simp only [hfp] at h
          cases hrs : runSeq (fun d s => visit plugins fuel d s) p.needs
              { st with visiting := id :: st.visiting } with
          | ok st2 => simp only [hrs] at h; simp at h
          | error e =>
            simp only [hrs] at h
            injection h with h
            subst h
            rcases runSeq_error_split _
                (fun d s s1 hds => (visit_post plugins fuel d s s1 hds).1) p.needs _ _ hrs with
              ⟨d, s, hdmem, hvis, herr⟩
            have hidreg : isRegistered plugins id = true := by
              rw [isRegistered, hfp]; rfl
            apply ih d s c ?_ ?_ herr
            · rw [hvis]
              show StackChain plugins (id :: st.visiting)
              cases hv : st.visiting with
              | nil => exact hidreg
              | cons h0 t0 =>
                refine ⟨hidreg, hcall h0 t0 hv hidreg, ?_⟩
                rw [← hv]
                exact hchain
            · intro h0 t0 hst0 hdreg
              rw [hvis] at hst0
              injection hst0 with h1 _
              subst h1
              exact ⟨p, hfp, hdmem, hdreg⟩

theorem topologicalSort_circular_sound (plugins : List (Plugin C Out)) (c : String)
    (h : topologicalSort plugins = .error (.circular c)) :
    Relation.TransGen (depEdge plugins) c c := by
  unfold topologicalSort at h
  cases hrs : runSeq (fun d s => visit plugins (plugins.length + 1) d s)
      (plugins.map (fun p => p.id)) { sorted := [], visited := [], visiting := [] } with
  | ok st => simp [hrs] at h
  | error e =>
    simp only [hrs] at h
    injection h with h
    subst h
    rcases runSeq_error_split _
        (fun d s s1 hds => (visit_post plugins (plugins.length + 1) d s s1 hds).1)
        (plugins.map (fun p => p.id)) _ _ hrs with ⟨d, s, _, hvis, herr⟩
    apply visit_circular_sound plugins (plugins.length + 1) d s c ?_ ?_ herr
    · rw [hvis]
      exact trivial
    · intro h0 t0 hst0
      rw [hvis] at hst0
      simp at hst0

theorem append_singleton_eq_split {α : Type} (l l1 l2 : List α) (p q : α)
    (h : l ++ [p] = l1 ++ q :: l2) :
    (∃ l2a, l = l1 ++ q :: l2a ∧ l2 = l2a ++ [p]) ∨ (l1 = l ∧ q = p ∧ l2 = []) := by
  rcases List.eq_nil_or_concat' l2 with h2 | ⟨l2a, a, h2⟩
  · subst h2
    right
    obtain ⟨h3, h4⟩ := List.append_inj' h (by simp)
    injection h4 with h5 _
    exact ⟨h3.symm, h5.symm, rfl⟩
  · subst h2
    left
    rw [show l1 ++ q :: (l2a ++ [a]) = (l1 ++ q :: l2a) ++ [a] by simp] at h
    obtain ⟨h3, h4⟩ := List.append_inj' h (by simp)
    injection h4 with h5 _
    exact ⟨l2a, h3, by rw [h5]⟩

theorem runSeq_pred (f : String → SortState C Out → Except SortError (SortState C Out))
    (P : SortState C Out → Prop)
    (hf : ∀ d s s1, f d s = .ok s1 → P s → P s1) :
    ∀ (ds : List String) (st st1 : SortState C Out),
      runSeq f ds st = .ok st1 → P st → P st1 := by
  intro ds
  induction ds with
  | nil =>
    intro st st1 h hP
    injection h with h
    subst h
    exact hP
  | cons d ds ih =>
    intro st st1 h hP
    simp only [runSeq] at h
    cases hstep : f d st with
    | error e => simp [hstep] at h
    | ok s2 =>
      simp only [hstep] at h
      exact ih s2 st1 h (hf d st s2 hstep hP)

theorem visit_inv (plugins : List (Plugin C Out)) :
    ∀ (fuel : Nat) (id : String) (st st1 : SortState C Out),
      visit plugins fuel id st = .ok st1 →
      SortInv plugins st → SortInv plugins st1 := by
  intro fuel
  induction fuel with
  | zero => intro id st st1 h _; simp [visit] at h
  | succ fuel ih =>
    intro id st st1 h hinv
    simp only [visit] at h
    by_cases hvd : id ∈ st.visited
    · rw [if_pos hvd] at h
      injection h with h
      subst h
      exact hinv
    · rw [if_neg hvd] at h
      by_cases hvg : id ∈ st.visiting
      · rw [if_pos hvg] at h; simp at h
      · rw [if_neg hvg] at h
        cases hfp : findPlugin plugins id with
        | none =>
          simp only [hfp] at h
          injection h with h
          subst h
          exact hinv
        | some p =>
          simp only [hfp] at h
          cases hrs : runSeq (fun d s => visit plugins fuel d s) p.needs
              { st with visiting := id :: st.visiting } with
          | error e => simp [hrs] at h
          | ok st2 =>
            simp only [hrs] at h
            injection h with h
            subst h
            have hpid := findPlugin_eq_some hfp
            have hinvx : SortInv plugins { st with visiting := id :: st.visiting } := by
              refine ⟨hinv.sortedFind, hinv.visitedIff, hinv.nodupSorted, ?_, hinv.topo⟩
              intro x hx hc
              rcases List.mem_cons.mp hc with rfl | hc2
              · exact hvd hx
              · exact hinv.disjoint x hx hc2
            have hinv2 : SortInv plugins st2 :=
              runSeq_pred _ _ (fun d s s1 hds hP => ih d s s1 hds hP) p.needs _ st2 hrs hinvx
            have hposts :=
              runSeq_post_aux plugins _
                (fun d s s1 hds => visit_post plugins fuel d s s1 hds) p.needs _ st2 hrs
            have hv2 : st2.visiting = id :: st.visiting := hposts.1
            have hneeds : ∀ d ∈ p.needs, isRegistered plugins d = true → d ∈ st2.visited :=
              hposts.2.2
            have hidnot2 : ¬ id ∈ st2.visited := by
              intro hc
              exact hinv2.disjoint id hc (by rw [hv2]; exact List.mem_cons_self _ _)
            have hidnotmap : ¬ id ∈ st2.sorted.map (fun q => q.id) := by
              intro hc
              rcases List.mem_map.mp hc with ⟨q, hq, hqid⟩
              exact hidnot2 ((hinv2.visitedIff id).mpr ⟨q, hq, hqid⟩)
            constructor
            · intro q hq
              rcases List.mem_append.mp hq with hq | hq
              · exact hinv2.sortedFind q hq
              · rcases List.mem_singleton.mp hq with rfl
                rw [hpid.1]
                exact hfp
            · intro x
              constructor
              · intro hx
                rcases List.mem_cons.mp hx with rfl | hx2
                · exact ⟨p, List.mem_append_right _ (List.mem_singleton.mpr rfl), hpid.1⟩
                · rcases (hinv2.visitedIff x).mp hx2 with ⟨q, hq, hqid⟩
                  exact ⟨q, List.mem_append_left _ hq, hqid⟩
              · rintro ⟨q, hq, hqid⟩
                rcases List.mem_append.mp hq with hq | hq
                · exact List.mem_cons_of_mem _ ((hinv2.visitedIff x).mpr ⟨q, hq, hqid⟩)
                · rcases List.mem_singleton.mp hq with rfl
                  rw [← hqid, hpid.1]
                  exact List.mem_cons_self _ _
            · rw [List.map_append]
              apply List.Nodup.append hinv2.nodupSorted (by simp)
              intro x hx1 hx2
              simp only [List.map_cons, List.map_nil, List.mem_singleton] at hx2
              subst hx2
              rw [hpid.1] at hx1
              exact hidnotmap hx1
            · intro x hx hc
              rcases List.mem_cons.mp hx with rfl | hx2
              · rw [hv2, List.erase_cons_head] at hc
                exact hvg hc
              · exact hinv2.disjoint x hx2 (List.mem_of_mem_erase hc)
            · intro l1 q l2 hsplit d hd hreg
              rcases append_singleton_eq_split _ _ _ _ _ hsplit with
                ⟨l2a, hl, _⟩ | ⟨hl1, hq, _⟩
              · exact hinv2.topo l1 q l2a hl d hd hreg
              · subst hq
                have hdv : d ∈ st2.visited := hneeds d hd hreg
                rcases (hinv2.visitedIff d).mp hdv with ⟨q2, hq2, hq2id⟩
                exact ⟨q2, hl1 ▸ hq2, hq2id⟩

theorem sortInv_init (plugins : List (Plugin C Out)) :
    SortInv plugins { sorted := [], visited := [], visiting := [] } := by
  constructor
  · intro q hq; simp at hq
  · intro x; simp
  · simp
  · intro x hx; simp at hx
  · intro l1 q l2 hsplit d _ _
    exact absurd hsplit (by simp)

theorem topologicalSort_ok_facts (plugins : List (Plugin C Out))
    (sorted : List (Plugin C Out)) (h : topologicalSort plugins = .ok sorted) :
    ∃ stf : SortState C Out, SortInv plugins stf ∧ stf.sorted = sorted
      ∧ ∀ x ∈ plugins.map (fun p => p.id), x ∈ stf.visited := by
  unfold topologicalSort at h
  cases hrs : runSeq (fun d s => visit plugins (plugins.length + 1) d s)
      (plugins.map (fun p => p.id)) { sorted := [], visited := [], visiting := [] } with
  | error e => simp [hrs] at h
  | ok stf =>
    simp only [hrs] at h
    injection h with h
    refine ⟨stf, ?_, h, ?_⟩
    · exact runSeq_pred _ _
        (fun d s s1 hds hP => visit_inv plugins (plugins.length + 1) d s s1 hds hP)
        _ _ stf hrs (sortInv_init plugins)
    · intro x hx
      have hreg : isRegistered plugins x = true := by
        rcases List.mem_map.mp hx with ⟨p, hp, hpid⟩
        rw [← hpid]
        exact isRegistered_of_mem hp
      exact (runSeq_post_aux plugins _
        (fun d s s1 hds => visit_post plugins (plugins.length + 1) d s s1 hds)
        _ _ stf hrs).2.2 x hx hreg

theorem sortInv_index (plugins : List (Plugin C Out))
    (hnd : (plugins.map (fun p => p.id)).Nodup)
    (stf : SortState C Out) (hinv : SortInv plugins stf)
    (hall : ∀ x ∈ plugins.map (fun p => p.id), x ∈ stf.visited) :
    (∀ p ∈ plugins, p ∈ stf.sorted)
    ∧ ∀ q ∈ stf.sorted, ∀ d ∈ q.needs, isRegistered plugins d = true →
        (stf.sorted.map (fun r => r.id)).indexOf d <
          (stf.sorted.map (fun r => r.id)).indexOf q.id := by
  have hmem : ∀ p ∈ plugins, p ∈ stf.sorted := by
    intro p hp
    have hx : p.id ∈ stf.visited := hall p.id (List.mem_map.mpr ⟨p, hp, rfl⟩)
    rcases (hinv.visitedIff p.id).mp hx with ⟨q, hq, hqid⟩
    have h1 : findPlugin plugins q.id = some q := hinv.sortedFind q hq
    have h2 : findPlugin plugins p.id = some p := findPlugin_self hnd hp
    rw [hqid] at h1
    rw [h1] at h2
    injection h2 with h2
    rw [← h2]
    exact hq
  refine ⟨hmem, ?_⟩
  intro q hq d hd hreg
  rcases List.append_of_mem hq with ⟨l1, l2, hsplit⟩
  rcases hinv.topo l1 q l2 hsplit d hd hreg with ⟨q2, hq2, hq2id⟩
  have hids : stf.sorted.map (fun r => r.id) =
      l1.map (fun r => r.id) ++ q.id :: l2.map (fun r => r.id) := by
    rw [hsplit]; simp
  have hdl1 : d ∈ l1.map (fun r => r.id) := List.mem_map.mpr ⟨q2, hq2, hq2id⟩
  have hnodup := hinv.nodupSorted
  rw [hids] at hnodup ⊢
  have hqnotl1 : ¬ q.id ∈ l1.map (fun r => r.id) := by
    rw [List.nodup_append] at hnodup
    intro hc
    exact hnodup.2.2 hc (List.mem_cons_self _ _)
  rw [List.indexOf_append_of_mem hdl1, List.indexOf_append_of_not_mem hqnotl1,
    List.indexOf_cons_self]
  have h1 : (l1.map (fun r => r.id)).indexOf d < (l1.map (fun r => r.id)).length :=
    List.indexOf_lt_length.mpr hdl1
  omega

theorem transGen_rank_lt {r : String → String → Prop} (rank : String → Nat)
    (hr : ∀ a b, r a b → rank b < rank a) :
    ∀ a b, Relation.TransGen r a b → rank b < rank a := by
  intro a b h
  induction h with
  | single h1 => exact hr _ _ h1
  | tail _ h2 ih => exact Nat.lt_trans (hr _ _ h2) ih

theorem acyclic_of_rank (plugins : List (Plugin C Out)) (rank : String → Nat)
    (h : ∀ p ∈ plugins, ∀ d ∈ p.needs, isRegistered plugins d = true →
      rank d < rank p.id) :
    Acyclic plugins := by
  intro c hc
  have hr : ∀ a b, depEdge plugins a b → rank b < rank a := by
    rintro a b ⟨p, hfp, hb, hregb⟩
    rcases findPlugin_eq_some hfp with ⟨hpid, hpmem⟩
    have := h p hpmem b hb hregb
    rw [hpid] at this
    exact this
  exact Nat.lt_irrefl _ (transGen_rank_lt rank hr c c hc)

theorem acyclic_of_topologicalSort_ok (plugins : List (Plugin C Out))
    (hnd : (plugins.map (fun p => p.id)).Nodup)
    (sorted : List (Plugin C Out)) (h : topologicalSort plugins = .ok sorted) :
    Acyclic plugins := by
  rcases topologicalSort_ok_facts plugins sorted h with ⟨stf, hinv, _, hall⟩
  rcases sortInv_index plugins hnd stf hinv hall with ⟨hmem, hidx⟩
  intro c hc
  have hr : ∀ a b, depEdge plugins a b →
      (stf.sorted.map (fun r => r.id)).indexOf b <
        (stf.sorted.map (fun r => r.id)).indexOf a := by
    rintro a b ⟨p, hfp, hb, hregb⟩
    rcases findPlugin_eq_some hfp with ⟨hpid, hpmem⟩
    have := hidx p (hmem p hpmem) b hb hregb
    rw [hpid] at this
    exact this
  exact Nat.lt_irrefl _ (transGen_rank_lt _ hr c c hc)

/-- C3: for a registry with unique identities whose dependency relation over
registered identities is acyclic, the resolved order returned by getPlugins
on a fresh cache is the one topologicalSort computes, and it is a topological
order: every registered dependency of a registered producer has a strictly
smaller index in the order than the producer itself. -/
theorem getPlugins_topological_order (plugins : List (Plugin C Out))
    (hnd : (plugins.map (fun p => p.id)).Nodup)
    (hacyc : Acyclic plugins) :
    ∃ sorted,
      getPlugins { plugins := plugins, sortedPlugins := [] } = .ok sorted
      ∧ topologicalSort plugins = .ok sorted
      ∧ ∀ p ∈ plugins, ∀ d ∈ p.needs, isRegistered plugins d = true →
          (sorted.map (fun q => q.id)).indexOf d <
            (sorted.map (fun q => q.id)).indexOf p.id := by
  cases h : topologicalSort plugins with
  | error e =>
    cases e with
    | circular c => exact absurd (topologicalSort_circular_sound plugins c h) (hacyc c)
    | outOfFuel => exact absurd h (topologicalSort_not_fuel plugins)
  | ok sorted =>
    refine ⟨sorted, ?_, rfl, ?_⟩
    · unfold getPlugins
      by_cases hlen : 0 < plugins.length
      · rw [if_pos ⟨rfl, hlen⟩]
        exact h
      · have hnil : plugins = [] := List.length_eq_zero.mp (Nat.eq_zero_of_not_pos hlen)
        subst hnil
        rw [if_neg (by simp)]
        have hcomp : topologicalSort ([] : List (Plugin C Out)) = .ok [] := rfl
        rw [hcomp] at h
        injection h with h
        rw [← h]
    · rcases topologicalSort_ok_facts plugins sorted h with ⟨stf, hinv, hs, hall⟩
      rcases sortInv_index plugins hnd stf hinv hall with ⟨hmem, hidx⟩
      intro p hp d hd hreg
      have := hidx p (hmem p hp) d hd hreg
      rw [hs] at this
      exact this

/-- C6: for a registry with unique identities whose dependency relation over
registered identities contains a cycle of length at least two, resolution
fails with the circular-dependency error, and the identity the error message
names lies on a cycle of the dependency relation. -/
theorem topologicalSort_cycle_rejected (plugins : List (Plugin C Out))
    (hnd : (plugins.map (fun p => p.id)).Nodup)
    (hcyc : ∃ a b, a ≠ b ∧ depEdge plugins a b
      ∧ Relation.ReflTransGen (depEdge plugins) b a) :
    ∃ c, topologicalSort plugins = .error (.circular c)
      ∧ Relation.TransGen (depEdge plugins) c c
      ∧ circularMessage c = ("Circular dependency detected involving plugin: ") ++ c := by
  rcases hcyc with ⟨a, b, _, hab, hba⟩
  have hnotacyc : ¬ Acyclic plugins := fun hA => hA a (Relation.TransGen.head' hab hba)
  cases h : topologicalSort plugins with
  | ok sorted => exact absurd (acyclic_of_topologicalSort_ok plugins hnd sorted h) hnotacyc
  | error e =>
    cases e with
    | circular c => exact ⟨c, rfl, topologicalSort_circular_sound plugins c h, rfl⟩
    | outOfFuel => exact absurd h (topologicalSort_not_fuel plugins)

/-- C1 counterexample: a value thrown by the eligibility check is NOT
recovered inside execute; it escapes the whole call, because the check runs
outside the try block, so the claim that no error of the eligibility check
escapes execute is false. -/
theorem execute_canRun_error_escapes_cex :
    execute [badCanRunPlugin] () = .error (.errObj ("boom")) := rfl

theorem execute_generateContent_error_isolated_witness :
    (execAux () [genErrorPlugin] { outputs := [], sections := [], trace := [] } =
      execAux () ([] : List (Plugin Unit Nat))
        { outputs := [], sections := [],
          trace := [] ++ [.started (("gerr")), .errorLogged (("gerr")) (("net down"))] })
    ∧ ∃ stf, execAux () [genErrorPlugin]
        { outputs := [], sections := [], trace := [] } = .ok stf :=
  ⟨(execute_generateContent_error_isolated ()).1 genErrorPlugin []
      { outputs := [], sections := [], trace := [] } (.errObj ("net down")) rfl rfl,
   (execute_generateContent_error_isolated ()).2 [genErrorPlugin]
      { outputs := [], sections := [], trace := [] }
      (by
        intro p hp deps
        rw [List.mem_singleton] at hp
        subst hp
        exact ⟨true, rfl⟩)⟩

/-- C2 counterexample: a producer whose eligibility check returned true and
whose generation step completed without throwing, but returned null, has no
output payload recorded, so the claimed if-and-only-if fails. -/
theorem execute_null_result_no_output_cex :
    nullResultPlugin.canRun () (buildDeps nullResultPlugin.needs []) = .ok true
    ∧ nullResultPlugin.generateContent () (buildDeps nullResultPlugin.needs []) = .ok none
    ∧ execAux () [nullResultPlugin] { outputs := [], sections := [], trace := [] } =
        .ok { outputs := [], sections := [],
              trace := [.started (("nullp")), .returnedNull (("nullp"))] }
    ∧ lookupKey ([] : List (String × Nat)) (("nullp")) = none :=
  ⟨rfl, rfl, rfl, rfl⟩

theorem execute_output_recorded_iff_witness :
    lookupKey recFinalState.outputs recordedPlugin.id =
      some ({ sections := [], output := 7 } : PluginResult Nat).output :=
  (execute_output_recorded_iff () [recordedPlugin] recFinalState
      recordedPlugin (by simp) (by simp) rfl).2
    [] [] { outputs := [], sections := [], trace := [] }
    { sections := [], output := 7 } rfl rfl rfl rfl

theorem runConfigPrompts_cancellation_checkpoint_witness :
    (runConfigPrompts [cfgPluginFresh, cfgPluginCancel, cfgPluginThrow] 0 { reset := false } =
      { saves := [1], events := [], result := .error (.errObj ("Configuration cancelled")) })
    ∧ (runCfgAux { reset := false } [cfgPluginFresh] 5).saves =
        6 :: (runCfgAux { reset := false } ([] : List (Plugin Nat Nat)) 6).saves :=
  ⟨(runConfigPrompts_cancellation_checkpoint { reset := false }).1
      [cfgPluginFresh] cfgPluginCancel [cfgPluginThrow] 0 1 [1] []
      (.errObj ("Configuration cancelled")) rfl rfl rfl,
   (runConfigPrompts_cancellation_checkpoint { reset := false }).2
      cfgPluginFresh [] 5 6 rfl⟩

theorem runConfigPrompts_escape_iff_cancelled_message_witness :
    ((runConfigPrompts [cfgPluginCancel] 0 { reset := false }).result =
        .error (.errObj ("Configuration cancelled")) →
      (Thrown.errObj ("Configuration cancelled")) = .errObj ("Configuration cancelled"))
    ∧ (runConfigPrompts [cfgPluginThrow] 0 { reset := false } =
        { saves := (runConfigPrompts ([] : List (Plugin Nat Nat)) 0 { reset := false }).saves,
          events := .promptFailed (("ct")) (("Unknown error"))
            :: (runConfigPrompts ([] : List (Plugin Nat Nat)) 0 { reset := false }).events,
          result := (runConfigPrompts ([] : List (Plugin Nat Nat)) 0 { reset := false }).result }) :=
  ⟨fun h => (runConfigPrompts_escape_iff_cancelled_message { reset := false }).1
      [cfgPluginCancel] 0 (.errObj ("Configuration cancelled")) h,
   (runConfigPrompts_escape_iff_cancelled_message { reset := false }).2.2
      cfgPluginThrow [] 0 (.other ("weird")) rfl (by decide)⟩

theorem execute_sections_sorted_stable_witness :
    execute [emitPlugin] () = .ok (sortSections ([sectionX, sectionY]))
    ∧ (sortSections ([sectionX, sectionY])).Pairwise (fun a b => a.priority ≤ b.priority)
    ∧ ∀ pr : Int,
        (sortSections ([sectionX, sectionY])).filter (fun x => x.priority == pr) =
          ([sectionX, sectionY]).filter (fun x => x.priority == pr) :=
  execute_sections_sorted_stable [emitPlugin] ()
    { outputs := [((("emit")), (0 : Nat))], sections := [sectionX, sectionY],
      trace := [.started (("emit")), .generated (("emit")) 2] } rfl

theorem register_unchanged_on_duplicate_witness :
    register { plugins := [depPluginB], sortedPlugins := [] }
        (testPlugin ("b") [("x")] (fun _ _ => .ok false) (fun _ _ => .ok none)) =
      (.error (duplicateMessage ("b")), { plugins := [depPluginB], sortedPlugins := [] }) :=
  register_unchanged_on_duplicate
    { plugins := [depPluginB], sortedPlugins := [] }
    (testPlugin ("b") [("x")] (fun _ _ => .ok false) (fun _ _ => .ok none))
    ⟨depPluginB, List.mem_singleton.mpr rfl, rfl⟩

theorem declined_field_skips_prompt_witness :
    githubPromptForConfig ghAnswers declinedConfig { reset := false } = (.ok .same, [])
    ∧ templatePromptForConfig tmplAnswers declinedConfig { reset := false } = (.ok .same, []) :=
  ⟨declined_field_skips_prompt.1 ghAnswers declinedConfig { reset := false } rfl rfl,
   declined_field_skips_prompt.2 tmplAnswers declinedConfig { reset := false } rfl (.inl rfl)⟩

theorem getPlugins_topological_order_witness :
    ∃ sorted,
      getPlugins { plugins := [depPluginA, depPluginB], sortedPlugins := [] } = .ok sorted
      ∧ topologicalSort [depPluginA, depPluginB] = .ok sorted
      ∧ ∀ p ∈ [depPluginA, depPluginB], ∀ d ∈ p.needs,
          isRegistered [depPluginA, depPluginB] d = true →
          (sorted.map (fun q => q.id)).indexOf d <
            (sorted.map (fun q => q.id)).indexOf p.id :=
  getPlugins_topological_order [depPluginA, depPluginB] (by decide)
    (acyclic_of_rank [depPluginA, depPluginB]
      (fun x => if x = ("b") then 0 else 1) (by decide))

theorem topologicalSort_cycle_rejected_witness :
    ∃ c, topologicalSort [cycPluginA, cycPluginB] = .error (.circular c)
      ∧ Relation.TransGen (depEdge [cycPluginA, cycPluginB]) c c
      ∧ circularMessage c = ("Circular dependency detected involving plugin: ") ++ c :=
  topologicalSort_cycle_rejected [cycPluginA, cycPluginB] (by decide)
    ⟨("ca"), ("cb"), by decide,
     ⟨cycPluginA, rfl, by decide, rfl⟩,
     Relation.ReflTransGen.single ⟨cycPluginB, rfl, by decide, rfl⟩⟩

end ResumeHelper
